import Mathlib

/-!
# Verification of the CSV-ingestion / lifecycle subsystem

A shallow embedding, in Lean 4, of the data-handling core of the repository:

* the CSV decoder (`csvToJsonArray`, `parseCSVLines`, `parseCSVRow`),
* the file-name parser and Korean transliteration (`parseFileName`,
  `romanizeKorean`, `generateSchemaName`, `generateTableName`),
* the batch loader of the upload route (`generateInsertSQL`, batching loop),
* the trash `daysLeft` computation,
* the read-path identifier validator, and
* the soft-delete and restore handlers, modelled as pure state transformers
  over an explicit store state with an oracle deciding which remote store
  calls fail.

JavaScript strings are modelled as Lean `String` / `List Char`; JavaScript
objects (`Record<string, string>`) as insertion-ordered association lists
with assignment-in-place semantics (`jsSet`).
-/

set_option maxHeartbeats 1000000

namespace Midcam

/-! ## JavaScript string primitives -/

/-- The whitespace characters recognised by JavaScript's `\s` / `trim` that
can realistically occur in this code path (ASCII whitespace, NBSP, BOM). -/
def isJsWs (c : Char) : Bool :=
  c = ' ' || c = '\t' || c = '\n' || c = '\r' ||
  c = '\x0b' || c = '\x0c' || c = '\u00A0' || c = '\uFEFF'

/-- `String.prototype.trim` on a character list: drop whitespace at both ends. -/
def jsTrim (cs : List Char) : List Char :=
  ((cs.dropWhile isJsWs).reverse.dropWhile isJsWs).reverse

/-- ASCII lowercasing (the inputs this code lowercases are ASCII-only). -/
def asciiLower (c : Char) : Char :=
  if 'A' ≤ c ∧ c ≤ 'Z' then Char.ofNat (c.toNat + 32) else c

/-- ASCII `[a-zA-Z0-9]` test (JavaScript `/[a-zA-Z0-9]/`). -/
def isAsciiAlnum (c : Char) : Bool :=
  ('a' ≤ c && c ≤ 'z') || ('A' ≤ c && c ≤ 'Z') || ('0' ≤ c && c ≤ '9')

/-- ASCII `[a-z0-9]` test. -/
def isLowerAlnum (c : Char) : Bool :=
  ('a' ≤ c && c ≤ 'z') || ('0' ≤ c && c ≤ '9')

/-! ## CSV decoder (`utils/csvParser.ts`) -/

/-- Strip one leading byte-order mark (`csv.replace(/^﻿/, '')`). -/
def stripBOM : List Char → List Char
  | '\uFEFF' :: rest => rest
  | cs => cs

/-- Push the current logical line onto the accumulator if its trim is
non-empty (`if (currentLine.trim()) lines.push(currentLine)`). -/
def pushLine (acc : List (List Char)) (cur : List Char) : List (List Char) :=
  if jsTrim cur ≠ [] then acc ++ [cur] else acc

/-- The character scan of `parseCSVLines`: split a CSV text into logical
lines, treating line terminators inside double quotes as field content and
passing a doubled quote through unchanged.  `cur` is the line being built,
`q` the "inside quotes" flag, `acc` the completed lines. -/
def parseCSVLinesAux : List Char → List Char → Bool → List (List Char) → List (List Char)
  | [], cur, _, acc => pushLine acc cur
  | '"' :: '"' :: rest, cur, q, acc => parseCSVLinesAux rest (cur ++ ['"', '"']) q acc
  | '"' :: rest, cur, q, acc => parseCSVLinesAux rest (cur ++ ['"']) (!q) acc
  | '\r' :: '\n' :: rest, cur, q, acc =>
      if q then parseCSVLinesAux rest (cur ++ ['\r', '\n']) q acc
      else parseCSVLinesAux rest [] false (pushLine acc cur)
  | c :: rest, cur, q, acc =>
      if (c = '\n' ∨ c = '\r') ∧ q = false then
        parseCSVLinesAux rest [] false (pushLine acc cur)
      else
        parseCSVLinesAux rest (cur ++ [c]) q acc

/-- `parseCSVLines`: CSV text to logical lines. -/
def parseCSVLines (csv : List Char) : List (List Char) :=
  parseCSVLinesAux csv [] false []

/-- The character scan of `parseCSVRow`: split one logical line into fields
at top-level commas; a quote toggles the in-quotes flag and is dropped,
except that a doubled quote emits one literal quote. -/
def parseCSVRowAux : List Char → List Char → Bool → List (List Char) → List (List Char)
  | [], cur, _, acc => acc ++ [cur]
  | '"' :: '"' :: rest, cur, q, acc => parseCSVRowAux rest (cur ++ ['"']) q acc
  | '"' :: rest, cur, q, acc => parseCSVRowAux rest cur (!q) acc
  | ',' :: rest, cur, q, acc =>
      if q then parseCSVRowAux rest (cur ++ [',']) q acc
      else parseCSVRowAux rest [] q (acc ++ [cur])
  | c :: rest, cur, q, acc => parseCSVRowAux rest (cur ++ [c]) q acc

/-- `parseCSVRow`: one logical line to its list of field values. -/
def parseCSVRow (row : List Char) : List (List Char) :=
  parseCSVRowAux row [] false []

/-- A decoded row record, as JavaScript builds it: insertion-ordered keys. -/
abbrev Row := List (String × String)

/-- JavaScript object assignment `obj[k] = v`: overwrite in place if the key
exists, otherwise append the new binding. -/
def jsSet : Row → String → String → Row
  | [], k, v => [(k, v)]
  | (k', v') :: rest, k, v =>
      if k' = k then (k', v) :: rest else (k', v') :: jsSet rest k v

/-- The `headers.forEach((header, index) => ...)` loop of `csvToJsonArray`:
zip trimmed headers against trimmed values, missing values becoming `""`. -/
def buildRowAux (values : List (List Char)) : List (List Char) → Nat → Row → Row
  | [], _, obj => obj
  | h :: hs, i, obj =>
      buildRowAux values hs (i + 1)
        (jsSet obj (jsTrim h).asString (jsTrim (values.getD i [])).asString)

/-- Build one row record from the header list and the field values of a
data line. -/
def buildRow (headers values : List (List Char)) : Row :=
  buildRowAux values headers 0 []

/-- `csvToJsonArray`: decode a CSV text into its list of row records.  The
first logical line is the header; every following logical line (all are
non-blank by construction, the `if (!line) continue` guard is kept for
fidelity) becomes one record. -/
def csvToJsonArray (csv : String) : List Row :=
  let lines := parseCSVLines (stripBOM csv.toList)
  match lines with
  | [] => []
  | [_] => []
  | header :: dataLines =>
      dataLines.foldl
        (fun res line =>
          let l := jsTrim line
          if l = [] then res
          else res ++ [buildRow (parseCSVRow header) (parseCSVRow l)])
        []

/-! ## NameResolver (`utils/filenameParser.ts` and the upload route) -/

/-- Lead-consonant (choseong) transcriptions. -/
def choTable : List String :=
  ["g", "gg", "n", "d", "dd", "r", "m", "b", "bb", "s", "ss", "", "j", "jj",
   "ch", "k", "t", "p", "h"]

/-- Vowel (jungseong) transcriptions. -/
def jungTable : List String :=
  ["a", "ae", "ya", "yae", "eo", "e", "yeo", "ye", "o", "wa", "wae", "oe",
   "yo", "u", "wo", "we", "wi", "yu", "eu", "ui", "i"]

/-- Trail-consonant (jongseong) transcriptions. -/
def jongTable : List String :=
  ["", "g", "gg", "gs", "n", "nj", "nh", "d", "l", "lg", "lm", "lb", "ls",
   "lt", "lp", "lh", "m", "b", "bs", "s", "ss", "ng", "j", "ch", "k", "t",
   "p", "h"]

/-- One character of `romanizeKorean`: decompose a Hangul syllable into its
jamo indices and concatenate the transcriptions; ASCII letters/digits pass
through; whitespace becomes a single space; everything else is dropped. -/
def romanizeChar (c : Char) : String :=
  let code := c.toNat
  if 0xAC00 ≤ code ∧ code ≤ 0xD7A3 then
    let offset := code - 0xAC00
    choTable.getD (offset / 588) "" ++ jungTable.getD (offset % 588 / 28) "" ++
      jongTable.getD (offset % 28) ""
  else if isAsciiAlnum c then String.singleton c
  else if isJsWs c then " "
  else ""

/-- `romanizeKorean` (identical in `filenameParser.ts` and the upload route). -/
def romanizeKorean (korean : String) : String :=
  String.join (korean.toList.map romanizeChar)

/-- `generateSchemaName` (upload route): transliterate, lowercase, delete
whitespace, keep only `[a-z0-9]`, replace a leading digit by `c`, and fall
back to `"company"` when empty. -/
def generateSchemaName (companyName : String) : String :=
  let romanized := (romanizeKorean companyName).toList.map asciiLower
  let noWs := romanized.filter (fun c => !isJsWs c)
  let alnum := noWs.filter isLowerAlnum
  let prefixed :=
    match alnum with
    | d :: rest => if '0' ≤ d ∧ d ≤ '9' then 'c' :: rest else d :: rest
    | [] => []
  if prefixed = [] then "company" else prefixed.asString

/-- Replace maximal whitespace runs by one underscore (`replace(/\s+/g, '_')`). -/
def replaceWsRuns : List Char → List Char
  | [] => []
  | c :: rest =>
      if isJsWs c then '_' :: replaceWsRuns (rest.dropWhile isJsWs)
      else c :: replaceWsRuns rest
termination_by cs => cs.length
decreasing_by
  · simp only [List.length_cons]
    exact Nat.lt_succ_of_le (List.dropWhile_suffix _).sublist.length_le
  · simp

/-- Collapse maximal underscore runs to one underscore (`replace(/_+/g, '_')`). -/
def collapseUnderscoreRuns : List Char → List Char
  | [] => []
  | c :: rest =>
      if c = '_' then '_' :: collapseUnderscoreRuns (rest.dropWhile (· = '_'))
      else c :: collapseUnderscoreRuns rest
termination_by cs => cs.length
decreasing_by
  · simp only [List.length_cons]
    exact Nat.lt_succ_of_le (List.dropWhile_suffix _).sublist.length_le
  · simp

/-- `replace(/^_|_$/g, '')`: remove one leading and one trailing underscore. -/
def stripEdgeUnderscores (cs : List Char) : List Char :=
  let a := if cs.head? = some '_' then cs.tail else cs
  if a.getLast? = some '_' then a.dropLast else a

/-- ASCII `[a-z0-9_]` test. -/
def isLowerWord (c : Char) : Bool := isLowerAlnum c || c = '_'

/-- `generateTableName` (`filenameParser.ts`): transliterate and sanitise the
company name, then produce `sales_<base><fileDate>`. -/
def generateTableName (companyName fileDate : String) : String :=
  let romanized := (romanizeKorean companyName).toList.map asciiLower
  let sanitized :=
    stripEdgeUnderscores
      (collapseUnderscoreRuns ((replaceWsRuns romanized).filter isLowerWord))
  let baseName := if sanitized = [] then "company".toList else sanitized
  "sales_" ++ baseName.asString ++ fileDate

/-- Result record of `parseFileName`. -/
structure FileNameParseResult where
  isValid : Bool
  companyName : String
  fileDate : String
  tableName : String
  errorMessage : Option String
deriving DecidableEq, Repr

/-- Numeric value of the two digit characters at positions `i`, `i+1`
(`parseInt(fileDate.substring(i, i+2))` on an all-digit string). -/
def twoDigitsAt (cs : List Char) (i : Nat) : Nat :=
  10 * ((cs.getD i '0').toNat - 48) + ((cs.getD (i + 1) '0').toNat - 48)

/-- `parseFileName`: require a (case-insensitive) `.csv` extension, six
trailing digits read as YYMMDD with month in 1..12 and day in 1..31, and a
non-empty trimmed company prefix. -/
def parseFileName (fileName : String) : FileNameParseResult :=
  if !(".csv".toList.isSuffixOf (fileName.toList.map asciiLower)) then
    ⟨false, "", "", "", some "CSV 파일만 업로드할 수 있습니다."⟩
  else
    let base := fileName.toList.take (fileName.toList.length - 4)
    if !(6 ≤ base.length && (base.drop (base.length - 6)).all Char.isDigit) then
      ⟨false, "", "", "",
        some "파일명 끝에 날짜(YYMMDD 형식)가 필요합니다. 예: \"모찌고251206.csv\""⟩
    else
      let fileDate := base.drop (base.length - 6)
      let month := twoDigitsAt fileDate 2
      let day := twoDigitsAt fileDate 4
      if month < 1 ∨ 12 < month then
        ⟨false, "", "", "", some "잘못된 월입니다. 1~12 사이여야 합니다."⟩
      else if day < 1 ∨ 31 < day then
        ⟨false, "", "", "", some "잘못된 일입니다. 1~31 사이여야 합니다."⟩
      else
        let companyName := jsTrim (base.take (base.length - 6))
        if companyName = [] then
          ⟨false, "", "", "",
            some "파일명에서 회사명을 찾을 수 없습니다. 예: \"모찌고251206.csv\""⟩
        else
          ⟨true, companyName.asString, fileDate.asString,
            generateTableName companyName.asString fileDate.asString, none⟩

/-! ## BatchLoader (`app/api/upload/route.ts`) -/

/-- `value.replace(/'/g, "''")`: escape a value by doubling every single
quote. -/
def escapeValue (v : String) : String :=
  (v.toList.flatMap fun c => if c = '\'' then ['\'', '\''] else [c]).asString

/-- `row[originalCol] ?? ""`: first binding of the key, defaulting to the
empty string. -/
def jsGetD (row : Row) (k : String) : String :=
  ((row.find? (fun kv => kv.1 == k)).map (·.2)).getD ""

/-- `generateInsertSQL`: one multi-row insert statement for a batch, quoting
column names and escaping every value. -/
def generateInsertSQL (tableName : String) (sanitizedColumns originalColumns :
    List String) (rows : List Row) : String :=
  let columnList := String.intercalate ", "
    (sanitizedColumns.map fun col => "\"" ++ col ++ "\"")
  let valuesList := rows.map fun row =>
    "(" ++ String.intercalate ", "
      (originalColumns.map fun c => "'" ++ escapeValue (jsGetD row c) ++ "'") ++ ")"
  "INSERT INTO public.\"" ++ tableName ++ "\" (" ++ columnList ++ ") VALUES " ++
    String.intercalate ", " valuesList ++ ";"

/-- The `BATCH_SIZE` constant of the upload route. -/
def BATCH_SIZE : Nat := 100

/-- The slicing loop `for (let i = 0; i < rows.length; i += BATCH_SIZE)`
read off as the list of batches it visits: `rows.slice(i, i + BATCH_SIZE)`
at `i = 0, 100, 200, ...`. -/
def batchesFrom (rows : List Row) (i : Nat) : List (List Row) :=
  if i < rows.length then
    ((rows.drop i).take BATCH_SIZE) :: batchesFrom rows (i + BATCH_SIZE)
  else []
termination_by rows.length - i
decreasing_by simp only [BATCH_SIZE]; omega

/-- The insert statements the upload route submits, strictly in loop order:
one statement per batch. -/
def uploadInsertStmts (tableName : String) (sanitizedColumns originalColumns :
    List String) (rows : List Row) : List String :=
  (batchesFrom rows 0).map (generateInsertSQL tableName sanitizedColumns originalColumns)

/-- Fixed-size partition of a list, in order (the spec-level description of
the batching: "partitions rows into fixed-size batches in original order"). -/
def chunks (k : Nat) : List Row → List (List Row)
  | [] => []
  | r :: rest =>
      if k = 0 then [] else (r :: rest).take k :: chunks k ((r :: rest).drop k)
termination_by rows => rows.length
decreasing_by simp_all; omega

/-! ## LifecycleManager: `daysLeft` (`app/api/admin/trash/route.ts`, GET) -/

/-- Milliseconds per day (`1000 * 60 * 60 * 24`). -/
def msPerDay : ℤ := 86400000

/-- The `daysLeft` computation of the trash list endpoint:
`Math.max(0, Math.ceil((expiresAt - now) / msPerDay))`, with timestamps in
milliseconds since the epoch. -/
def daysLeft (expiresAt now : ℤ) : ℤ :=
  max 0 ⌈((expiresAt - now : ℤ) : ℚ) / (msPerDay : ℚ)⌉

/-! ## TableReader identifier validation
(`app/api/admin/tables/[table]/route.ts`) -/

/-- `[a-zA-Z0-9_]` (a "word character" of the validation regex). -/
def isWordChar (c : Char) : Bool := isAsciiAlnum c || c = '_'

/-- Zero or more word characters to the end of the string. -/
def wordTail : List Char → Bool
  | [] => true
  | c :: rest => isWordChar c && wordTail rest

/-- After the dot: one or more word characters (`\.[a-zA-Z0-9_]+$`). -/
def afterDot : List Char → Bool
  | [] => false
  | c :: rest => isWordChar c && wordTail rest

/-- After the first word character: more word characters, then optionally a
single dot followed by a non-empty word-character run. -/
def mainPart : List Char → Bool
  | [] => true
  | c :: rest => if c = '.' then afterDot rest else isWordChar c && mainPart rest

/-- The read-path validation regex `^[a-zA-Z0-9_]+(\.[a-zA-Z0-9_]+)?$` as a
recogniser. -/
def validTableName (s : String) : Bool :=
  match s.toList with
  | [] => false
  | c :: rest => isWordChar c && mainPart rest

/-- The store calls the table-read endpoint issues for a given table
identifier: none at all when validation rejects, otherwise the single
`get_table_data` RPC. -/
def tableReadCalls (tableName : String) : List String :=
  if validTableName tableName then ["get_table_data"] else []

/-! ## LifecycleManager state machines

The soft-delete handler (`DELETE` of the table route) and the restore
handler (`POST` of the trash route) are sequences of remote store calls.
We model the store explicitly (live tables, trash entries, upload-log rows,
schemas) and let an oracle decide which fallible store call fails; a failed
call leaves the store unchanged and reports an error, exactly one attempt
per call, as in the code. -/

/-- One `upload_logs` row. -/
structure LogRec where
  companyName : String
  fileName : String
  fileDate : String
  tableName : String
  rowCount : Nat
deriving DecidableEq, Repr

/-- One `deleted_tables` row (a TrashEntry): metadata plus the optional
`json_agg` snapshot.  Snapshot scalars are modelled as strings. -/
structure TrashRec where
  id : Nat
  tableName : String
  companyName : String
  fileName : String
  fileDate : String
  rowCount : Nat
  originalData : Option (List Row)
deriving DecidableEq, Repr

/-- One live table of the store. -/
structure TableRec where
  schema : String
  name : String
  rows : List Row
deriving DecidableEq, Repr

/-- The shared relational store. `nextId` models the serial id the store
assigns to a newly inserted `deleted_tables` row. -/
structure AdminState where
  tables : List TableRec
  trash : List TrashRec
  logs : List LogRec
  schemas : List String
  nextId : Nat
deriving DecidableEq, Repr

/-- HTTP-level outcome of a handler. -/
inductive ApiResp
  | success
  | badRequest
  | notFound
  | serverError
deriving DecidableEq, Repr

/-- JavaScript `x || fallback` on strings: the fallback replaces empty
strings too. -/
def jsOr (s fallback : String) : String := if s = "" then fallback else s

/-- `tableName.split('.')` destructured as `[schema, table]`, defaulting to
the `public` schema when there is no dot. -/
def splitQualified (t : String) : String × String :=
  if t.toList.contains '.' then
    ((t.toList.takeWhile fun c => !(c == '.')).asString,
     (((t.toList.dropWhile fun c => !(c == '.')).tail.takeWhile
        fun c => !(c == '.'))).asString)
  else ("public", t)

/-- Look up a live table by schema and name. -/
def findTable (st : AdminState) (schema table : String) : Option TableRec :=
  st.tables.find? fun r => r.schema == schema && r.name == table

/-- Failure oracle for the soft-delete handler: one flag per fallible store
call, `true` meaning the call succeeds.  `schemaEmpty` is the value the
`check_schema_empty` RPC reports (`none` when that call errors). -/
structure DelOracle where
  logFetchOk : Bool
  dataFetchOk : Bool
  trashInsertOk : Bool
  dropOk : Bool
  logDeleteOk : Bool
  compDeleteOk : Bool
  schemaEmpty : Option Bool

/-- The `upload_logs` row the soft-delete handler sees: `none` when the
fetch fails or when `.single()` does not find exactly one matching row. -/
def delLogData (o : DelOracle) (tableName : String) (st : AdminState) :
    Option LogRec :=
  if o.logFetchOk then
    match st.logs.filter (fun l => l.tableName == tableName) with
    | [l] => some l
    | _ => none
  else none

/-- The snapshot the soft-delete handler captures: `none` when the data
fetch fails, the table is missing, or `json_agg` returns SQL NULL on an
empty table. -/
def delOrigData (o : DelOracle) (tableName : String) (st : AdminState) :
    Option (List Row) :=
  if o.dataFetchOk then
    match findTable st (splitQualified tableName).1 (splitQualified tableName).2 with
    | some tr => if tr.rows.isEmpty then none else some tr.rows
    | none => none
  else none

/-- The TrashEntry the soft-delete handler writes: metadata from the (best
effort) log fetch with the code's fallbacks, plus the snapshot. -/
def mkTrashRec (st : AdminState) (tableName : String)
    (logData : Option LogRec) (originalData : Option (List Row)) : TrashRec :=
  { id := st.nextId
    tableName := tableName
    companyName := jsOr ((logData.map (·.companyName)).getD "") "알 수 없음"
    fileName := jsOr ((logData.map (·.fileName)).getD "") tableName
    fileDate := (logData.map (·.fileDate)).getD ""
    rowCount := (logData.map (·.rowCount)).getD 0
    originalData := originalData }

/-- The soft-delete handler (`DELETE /api/admin/tables/[table]`):
validate the identifier, fetch log metadata and the full snapshot
(best effort), write the TrashEntry (abort on failure), drop the live
table (on failure, compensating delete of the trash rows for this table
name, result unchecked), delete the upload log (failure only logged), and
garbage-collect a non-`public` schema the store reports empty. -/
def deleteTable (o : DelOracle) (tableName : String) (st : AdminState) :
    ApiResp × AdminState :=
  if tableName = "" then (.badRequest, st)
  else if !(validTableName tableName) then (.badRequest, st)
  else
    let sq := splitQualified tableName
    let logData := delLogData o tableName st
    let originalData := delOrigData o tableName st
    if !o.trashInsertOk then (.serverError, st)
    else
      let st1 := { st with
        trash := st.trash ++ [mkTrashRec st tableName logData originalData]
        nextId := st.nextId + 1 }
      if !o.dropOk then
        let st2 :=
          if o.compDeleteOk then
            { st1 with trash := st1.trash.filter fun r => !(r.tableName == tableName) }
          else st1
        (.serverError, st2)
      else
        let st2 := { st1 with
          tables := st1.tables.filter fun r => !(r.schema == sq.1 && r.name == sq.2) }
        let st3 :=
          if o.logDeleteOk then
            { st2 with logs := st2.logs.filter fun l => !(l.tableName == tableName) }
          else st2
        let st4 :=
          if sq.1 ≠ "public" ∧ o.schemaEmpty = some true then
            { st3 with schemas := st3.schemas.filter fun s => !(s == sq.1) }
          else st3
        (.success, st4)

/-- Failure oracle for the restore handler.  `rowInsertOk` decides the
per-row reinsertion calls (their errors are ignored by the code). -/
structure RestOracle where
  fetchOk : Bool
  createOk : Bool
  rowInsertOk : Nat → Bool
  logInsertOk : Bool
  trashDeleteOk : Bool

/-- Append one reinserted row to the (unqualified, hence `public`) restored
table. -/
def addRowToTable (st : AdminState) (tname : String) (row : Row) : AdminState :=
  { st with
    tables := st.tables.map fun tr =>
      if tr.schema == "public" && tr.name == tname then
        { tr with rows := tr.rows ++ [row] }
      else tr }

/-- The per-row reinsertion loop of the restore handler: the `id` column is
excluded, and a failed insert is ignored (the row is simply lost). -/
def insertSnapshotRows (o : RestOracle) (tname : String) :
    List Row → Nat → AdminState → AdminState
  | [], _, st => st
  | row :: rest, i, st =>
      let st' :=
        if o.rowInsertOk i then
          addRowToTable st tname (row.filter fun kv => !(kv.1 == "id"))
        else st
      insertSnapshotRows o tname rest (i + 1) st'

/-- Steps 3–4 of the restore handler: append the new `upload_logs` row
(failure only logged) and delete the trash row (result unchecked), then
report success. -/
def finishRestore (o : RestOracle) (id : Nat) (item : TrashRec)
    (st : AdminState) : ApiResp × AdminState :=
  let st3 :=
    if o.logInsertOk then
      { st with logs := st.logs ++
          [⟨item.companyName, item.fileName, item.fileDate, item.tableName,
            item.rowCount⟩] }
    else st
  let st4 :=
    if o.trashDeleteOk then
      { st3 with trash := st3.trash.filter fun r => !(r.id == id) }
    else st3
  (.success, st4)

/-- The TrashEntry the restore handler loads: `none` when the fetch fails or
`.single()` does not find exactly one row with the requested id. -/
def restoreItem (o : RestOracle) (id : Nat) (st : AdminState) :
    Option TrashRec :=
  if o.fetchOk then
    match st.trash.filter (fun r => r.id == id) with
    | [x] => some x
    | _ => none
  else none

/-- The restore handler (`POST /api/admin/trash`): load the TrashEntry (404
when absent or the fetch fails), recreate the table and reinsert the
snapshot rows when the snapshot is non-empty (abort only on table-creation
failure), then re-add the upload log and delete the trash row. -/
def restorePOST (o : RestOracle) (id : Nat) (st : AdminState) :
    ApiResp × AdminState :=
  if id = 0 then (.badRequest, st)
  else
    match restoreItem o id st with
    | none => (.notFound, st)
    | some item =>
      match item.originalData with
      | some (firstRow :: restRows) =>
          if !o.createOk then (.serverError, st)
          else
            let st1 :=
              if (findTable st "public" item.tableName).isSome then st
              else { st with
                tables := st.tables ++ [⟨"public", item.tableName, []⟩] }
            let st2 := insertSnapshotRows o item.tableName (firstRow :: restRows) 0 st1
            finishRestore o id item st2
      | _ => finishRestore o id item st

/-! ## Spec-side definitions

These re-state pipelines in the wording of the specification, to be compared
with the definitions read off the source. -/

/-- The namespace-id derivation exactly as the claim words it: transliterate,
lowercase, strip everything outside `[a-z0-9]` in one pass, then, if the
result starts with a digit, PREFIX the fixed letter `c` (retaining the
digit), and fall back to `"company"` when empty. -/
def namespaceIdClaimed (companyName : String) : String :=
  let t := ((romanizeKorean companyName).toList.map asciiLower).filter isLowerAlnum
  let p :=
    match t with
    | d :: rest => if '0' ≤ d ∧ d ≤ '9' then 'c' :: d :: rest else d :: rest
    | [] => []
  if p = [] then "company" else p.asString

/-- The namespace-id derivation as amended: identical to the claim except
that a leading digit is REPLACED by the fixed letter `c` (the digit is
lost), which is what `replace(/^[0-9]/, 'c')` does. -/
def namespaceIdAmended (companyName : String) : String :=
  let t := ((romanizeKorean companyName).toList.map asciiLower).filter isLowerAlnum
  let p :=
    match t with
    | d :: rest => if '0' ≤ d ∧ d ≤ '9' then 'c' :: rest else d :: rest
    | [] => []
  if p = [] then "company" else p.asString

/-- The success condition of `parseFileName` as the claim words it: a
(case-insensitive) `.csv` extension; after stripping it, at least six
characters with the last six all digits; month (digits 3–4) in 1..12; day
(digits 5–6) in 1..31; and a non-empty trimmed company prefix. -/
def ParseFileNameOk (name : String) : Prop :=
  let base := name.toList.take (name.toList.length - 4)
  let date := base.drop (base.length - 6)
  ".csv".toList.isSuffixOf (name.toList.map asciiLower) = true ∧
  6 ≤ base.length ∧ (∀ c ∈ date, c.isDigit = true) ∧
  1 ≤ twoDigitsAt date 2 ∧ twoDigitsAt date 2 ≤ 12 ∧
  1 ≤ twoDigitsAt date 4 ∧ twoDigitsAt date 4 ≤ 31 ∧
  jsTrim (base.take (base.length - 6)) ≠ []

/-- The read-path identifier grammar as the spec words it: a non-empty run
of word characters, optionally qualified by a single dot followed by a
second non-empty run of word characters. -/
def NamespaceGrammar (s : String) : Prop :=
  ∃ a b : List Char,
    a ≠ [] ∧ (∀ c ∈ a, isWordChar c = true) ∧
    (s.toList = a ∨
      (b ≠ [] ∧ (∀ c ∈ b, isWordChar c = true) ∧ s.toList = a ++ '.' :: b))

end Midcam

namespace Midcam

/-! ## Helper lemmas -/

/-- A JavaScript whitespace character is never in `[a-z0-9]`. -/
theorem isJsWs_not_lowerAlnum {c : Char} (h : isJsWs c = true) :
    isLowerAlnum c = false := by
  simp only [isJsWs, Bool.or_eq_true, decide_eq_true_eq] at h
  rcases h with ((((((h | h) | h) | h) | h) | h) | h) | h <;> subst h <;> decide

/-- Filtering to `[a-z0-9]` after deleting whitespace equals filtering to
`[a-z0-9]` directly. -/
theorem filter_lowerAlnum_after_ws (l : List Char) :
    (l.filter fun c => !isJsWs c).filter isLowerAlnum = l.filter isLowerAlnum := by
  induction l with
  | nil => rfl
  | cons c cs ih =>
      by_cases hws : isJsWs c = true
      · simp [List.filter_cons, hws, isJsWs_not_lowerAlnum hws, ih]
      · simp only [Bool.not_eq_true] at hws
        simp [List.filter_cons, hws, ih]

/-! ## C7: `daysLeft` -/

/-- **C7.** For every TrashEntry, `daysLeft` equals
`max 0 ⌈(expiresAt - now) / msPerDay⌉`; it is always non-negative; and for a
fixed `expiresAt` it is non-increasing as `now` advances. -/
theorem daysLeft_spec :
    (∀ e n : ℤ, daysLeft e n = max 0 ⌈((e - n : ℤ) : ℚ) / (msPerDay : ℚ)⌉) ∧
    (∀ e n : ℤ, 0 ≤ daysLeft e n) ∧
    (∀ e n n' : ℤ, n ≤ n' → daysLeft e n' ≤ daysLeft e n) := by
  refine ⟨fun e n => rfl, fun e n => le_max_left _ _, fun e n n' h => ?_⟩
  unfold daysLeft
  refine max_le_max le_rfl (Int.ceil_le_ceil ?_)
  have hpos : (0 : ℚ) < (msPerDay : ℚ) := by norm_num [msPerDay]
  have hnum : ((e - n' : ℤ) : ℚ) ≤ ((e - n : ℤ) : ℚ) :=
    Int.cast_le.mpr (by omega)
  gcongr

/-- Witness for C7 at concrete timestamps: with `expiresAt` two days out,
advancing `now` from 0 to one day in does not increase `daysLeft`. -/
theorem daysLeft_spec_witness :
    (0 : ℤ) ≤ 86400000 ∧
      daysLeft (2 * 86400000) 86400000 ≤ daysLeft (2 * 86400000) 0 :=
  ⟨by norm_num, daysLeft_spec.2.2 (2 * 86400000) 0 86400000 (by norm_num)⟩

/-! ## C2: namespace-id derivation -/

/-- **C2, counterexample.** For the display name `"3m"` the code REPLACES
the leading digit (`generateSchemaName "3m" = "cm"`), whereas the claimed
pipeline (prefix a letter, retaining all digits) yields `"c3m"`. -/
theorem generateSchemaName_leading_digit_cex :
    generateSchemaName "3m" = "cm" ∧ namespaceIdClaimed "3m" = "c3m" ∧
      generateSchemaName "3m" ≠ namespaceIdClaimed "3m" := by
  refine ⟨rfl, rfl, ?_⟩
  decide

/-- **C2, amended.** For every display name, the derived namespace id equals
transliterate → lowercase → strip all non-`[a-z0-9]` → REPLACE a leading
digit by the fixed letter `c` → fall back to `"company"` when empty. -/
theorem generateSchemaName_pipeline (companyName : String) :
    generateSchemaName companyName = namespaceIdAmended companyName := by
  unfold generateSchemaName namespaceIdAmended
  simp only [filter_lowerAlnum_after_ws]

/-! ## C6: batching of `insertRows` -/

/-- The slicing loop visits exactly the fixed-size partition of the rows. -/
theorem batchesFrom_eq_chunks (rows : List Row) (i : Nat) :
    batchesFrom rows i = chunks BATCH_SIZE (rows.drop i) := by
  induction i using batchesFrom.induct rows with
  | case1 i hlt ih =>
      rw [batchesFrom, if_pos hlt]
      rcases hd : rows.drop i with _ | ⟨r, rest⟩
      · exfalso
        have := congrArg List.length hd
        simp [List.length_drop] at this
        omega
      · rw [chunks, if_neg (by simp [BATCH_SIZE])]
        rw [ih, ← hd, List.drop_drop]
  | case2 i hlt =>
      rw [batchesFrom, if_neg hlt,
        List.drop_eq_nil_of_le (by omega : rows.length ≤ i)]
      simp [chunks]

/-- Concatenating the batches from index `i` recovers the dropped suffix. -/
theorem batchesFrom_join (rows : List Row) (i : Nat) :
    (batchesFrom rows i).flatten = rows.drop i := by
  induction i using batchesFrom.induct rows with
  | case1 i hlt ih =>
      rw [batchesFrom, if_pos hlt, List.flatten_cons, ih, ← List.drop_drop,
        List.take_append_drop]
  | case2 i hlt =>
      rw [batchesFrom, if_neg hlt,
        List.drop_eq_nil_of_le (by omega : rows.length ≤ i)]
      rfl

/-- Quote-doubling: the escaped value has exactly twice as many single
quotes as the original. -/
theorem escapeValue_doubles_quotes (v : String) :
    (escapeValue v).toList.count '\'' = 2 * v.toList.count '\'' := by
  rw [escapeValue, List.toList_asString]
  induction v.toList with
  | nil => rfl
  | cons c cs ih =>
      by_cases hc : c = '\''
      · subst hc
        simp [List.count_cons, ih]
        ring
      · simp [List.count_cons, hc, ih]

/-- **C6.** `insertRows` submits one insert statement per fixed-size batch,
batches partition the rows in original order, 250 rows with batch size 100
give exactly the batches 100, 100, 50 in that order, and every value is
escaped by doubling embedded quote characters. -/
theorem insertRows_batching :
    (∀ (tn : String) (sc oc : List String) (rows : List Row),
        uploadInsertStmts tn sc oc rows =
          (chunks BATCH_SIZE rows).map (generateInsertSQL tn sc oc)) ∧
    (∀ rows : List Row, rows.length = 250 →
        (batchesFrom rows 0).map List.length = [100, 100, 50] ∧
        (batchesFrom rows 0).flatten = rows) ∧
    (∀ v : String,
        (escapeValue v).toList.count '\'' = 2 * v.toList.count '\'') := by
  refine ⟨fun tn sc oc rows => ?_, fun rows hlen => ⟨?_, ?_⟩,
    escapeValue_doubles_quotes⟩
  · rw [uploadInsertStmts, batchesFrom_eq_chunks, List.drop_zero]
  · have h0 : batchesFrom rows 0 = (rows.drop 0).take BATCH_SIZE ::
        batchesFrom rows (0 + BATCH_SIZE) := by
      rw [batchesFrom, if_pos (by omega)]
    have h1 : batchesFrom rows 100 = (rows.drop 100).take BATCH_SIZE ::
        batchesFrom rows (100 + BATCH_SIZE) := by
      rw [batchesFrom, if_pos (by omega)]
    have h2 : batchesFrom rows 200 = (rows.drop 200).take BATCH_SIZE ::
        batchesFrom rows (200 + BATCH_SIZE) := by
      rw [batchesFrom, if_pos (by omega)]
    have h3 : batchesFrom rows 300 = [] := by
      rw [batchesFrom, if_neg (by omega)]
    rw [show (0 + BATCH_SIZE) = 100 from rfl] at h0
    rw [show (100 + BATCH_SIZE) = 200 from rfl] at h1
    rw [show (200 + BATCH_SIZE) = 300 from rfl] at h2
    rw [h0, h1, h2, h3]
    simp [List.length_take, List.length_drop, hlen, BATCH_SIZE]
  · rw [← List.drop_zero rows]
    exact batchesFrom_join rows 0

/-- Witness for C6 on a concrete list of 250 rows. -/
theorem insertRows_batching_witness :
    (List.replicate 250 ([] : Row)).length = 250 ∧
    ((batchesFrom (List.replicate 250 ([] : Row)) 0).map List.length =
        [100, 100, 50] ∧
      (batchesFrom (List.replicate 250 ([] : Row)) 0).flatten =
        List.replicate 250 ([] : Row)) :=
  ⟨List.length_replicate 250 [], insertRows_batching.2.1 _ (List.length_replicate 250 [])⟩

/-! ## C8: read-path identifier validation -/

/-- `wordTail` accepts exactly the all-word-character strings. -/
theorem wordTail_iff (cs : List Char) :
    wordTail cs = true ↔ ∀ c ∈ cs, isWordChar c = true := by
  induction cs with
  | nil => simp [wordTail]
  | cons c rest ih => simp [wordTail, ih]

/-- `afterDot` accepts exactly the non-empty all-word-character strings. -/
theorem afterDot_iff (cs : List Char) :
    afterDot cs = true ↔ cs ≠ [] ∧ ∀ c ∈ cs, isWordChar c = true := by
  cases cs with
  | nil => simp [afterDot]
  | cons c rest => simp [afterDot, wordTail_iff]

/-- `mainPart` accepts exactly: all word characters, or word characters up
to a single dot followed by a non-empty word-character run. -/
theorem mainPart_iff (cs : List Char) :
    mainPart cs = true ↔
      ((∀ c ∈ cs, isWordChar c = true) ∨
        ∃ a b, cs = a ++ '.' :: b ∧ (∀ c ∈ a, isWordChar c = true) ∧
          b ≠ [] ∧ (∀ c ∈ b, isWordChar c = true)) := by
  induction cs with
  | nil =>
      simp only [mainPart, List.not_mem_nil, false_implies, implies_true,
        true_or, iff_true]
  | cons c rest ih =>
      by_cases hc : c = '.'
      · subst hc
        rw [mainPart, if_pos rfl, afterDot_iff]
        constructor
        · rintro ⟨hne, hall⟩
          exact Or.inr ⟨[], rest, rfl, by simp, hne, hall⟩
        · rintro (hall | ⟨a, b, heq, ha, hb, hball⟩)
          · exact absurd (hall '.' (List.mem_cons_self _ _)) (by decide)
          · rcases a with _ | ⟨x, a'⟩
            · simp only [List.nil_append, List.cons.injEq] at heq
              exact heq.2 ▸ ⟨hb, hball⟩
            · simp only [List.cons_append, List.cons.injEq] at heq
              exact absurd (heq.1 ▸ ha x (List.mem_cons_self _ _)) (by decide)
      · rw [mainPart, if_neg hc]
        by_cases hw : isWordChar c = true
        · simp only [hw, Bool.true_and, ih]
          constructor
          · rintro (hall | ⟨a', b, heq, ha, hb, hball⟩)
            · refine Or.inl fun x hx => ?_
              rcases List.mem_cons.mp hx with rfl | hx
              · exact hw
              · exact hall x hx
            · refine Or.inr ⟨c :: a', b, by simp [heq], ?_, hb, hball⟩
              intro x hx
              rcases List.mem_cons.mp hx with rfl | hx
              · exact hw
              · exact ha x hx
          · rintro (hall | ⟨a, b, heq, ha, hb, hball⟩)
            · exact Or.inl fun x hx => hall x (List.mem_cons_of_mem _ hx)
            · rcases a with _ | ⟨x, a'⟩
              · simp only [List.nil_append, List.cons.injEq] at heq
                exact absurd heq.1 hc
              · simp only [List.cons_append, List.cons.injEq] at heq
                refine Or.inr ⟨a', b, heq.2, ?_, hb, hball⟩
                exact fun y hy => ha y (List.mem_cons_of_mem _ hy)
        · rw [Bool.not_eq_true] at hw
          simp only [hw, Bool.false_and, Bool.false_eq_true, false_iff]
          rintro (hall | ⟨a, b, heq, ha, hb, hball⟩)
          · exact absurd (hall c (List.mem_cons_self _ _)) (by simp [hw])
          · rcases a with _ | ⟨x, a'⟩
            · simp only [List.nil_append, List.cons.injEq] at heq
              exact hc heq.1
            · simp only [List.cons_append, List.cons.injEq] at heq
              exact absurd (heq.1 ▸ ha x (List.mem_cons_self _ _)) (by simp [hw])

/-- The validator accepts exactly the spec grammar. -/
theorem validTableName_iff (s : String) :
    validTableName s = true ↔ NamespaceGrammar s := by
  rw [validTableName, NamespaceGrammar]
  cases hs : s.toList with
  | nil =>
      simp only [Bool.false_eq_true, false_iff]
      rintro ⟨a, b, hne, _, h | ⟨_, _, h⟩⟩
      · exact hne (by simpa using h.symm)
      · rcases a with _ | _
        · exact hne rfl
        · simp at h
  | cons c rest =>
      rw [Bool.and_eq_true, mainPart_iff]
      constructor
      · rintro ⟨hw, hall | ⟨a', b, heq, ha, hb, hball⟩⟩
        · refine ⟨c :: rest, [], by simp, ?_, Or.inl rfl⟩
          intro x hx
          rcases List.mem_cons.mp hx with rfl | hx
          · exact hw
          · exact hall x hx
        · refine ⟨c :: a', b, by simp, ?_, Or.inr ⟨hb, hball, by simp [heq]⟩⟩
          intro x hx
          rcases List.mem_cons.mp hx with rfl | hx
          · exact hw
          · exact ha x hx
      · rintro ⟨a, b, hne, ha, heq | ⟨hb, hball, heq⟩⟩
        · rcases a with _ | ⟨x, a'⟩
          · exact absurd rfl hne
          · simp only [List.cons.injEq] at heq
            obtain ⟨rfl, rfl⟩ := heq
            refine ⟨ha c (List.mem_cons_self _ _), Or.inl ?_⟩
            exact fun y hy => ha y (List.mem_cons_of_mem _ hy)
        · rcases a with _ | ⟨x, a'⟩
          · exact absurd rfl hne
          · simp only [List.cons_append, List.cons.injEq] at heq
            obtain ⟨rfl, hrest⟩ := heq
            refine ⟨ha c (List.mem_cons_self _ _), Or.inr ⟨a', b, hrest, ?_, hb, hball⟩⟩
            exact fun y hy => ha y (List.mem_cons_of_mem _ hy)

/-- Every character of an accepted identifier is a word character or the
dot. -/
theorem validTableName_chars {s : String} (h : validTableName s = true) :
    ∀ c ∈ s.toList, isWordChar c = true ∨ c = '.' := by
  obtain ⟨a, b, _, ha, heq | ⟨_, hball, heq⟩⟩ := (validTableName_iff s).mp h
  · intro c hc
    exact Or.inl (ha c (heq ▸ hc))
  · intro c hc
    rw [heq] at hc
    rcases List.mem_append.mp hc with hc | hc
    · exact Or.inl (ha c hc)
    · rcases List.mem_cons.mp hc with rfl | hc
      · exact Or.inr rfl
      · exact Or.inl (hball c hc)

/-- A JavaScript whitespace character is neither a word character nor the
dot. -/
theorem isJsWs_not_word {c : Char} (h : isJsWs c = true) :
    ¬(isWordChar c = true ∨ c = '.') := by
  simp only [isJsWs, Bool.or_eq_true, decide_eq_true_eq] at h
  rcases h with ((((((h | h) | h) | h) | h) | h) | h) | h <;> subst h <;> decide

/-- **C8.** The read path validates the table identifier against exactly the
grammar "non-empty word-character run, optionally dot-qualified by a second
non-empty word-character run", and any identifier containing a quote, a
semicolon, or whitespace is rejected with no store access at all. -/
theorem tableRead_validation :
    (∀ s : String, validTableName s = true ↔ NamespaceGrammar s) ∧
    (∀ (s : String) (c : Char), c ∈ s.toList →
        (c = '\'' ∨ c = '"' ∨ c = ';' ∨ isJsWs c = true) →
        validTableName s = false ∧ tableReadCalls s = []) := by
  refine ⟨validTableName_iff, fun s c hc hbad => ?_⟩
  have hrej : validTableName s = false := by
    rcases hv : validTableName s with _ | _
    · rfl
    · exfalso
      have hchar := validTableName_chars hv c hc
      rcases hbad with rfl | rfl | rfl | hws
      · exact absurd hchar (by decide)
      · exact absurd hchar (by decide)
      · exact absurd hchar (by decide)
      · exact isJsWs_not_word hws hchar
  exact ⟨hrej, by simp [tableReadCalls, hrej]⟩

/-- Witness for C8: the identifier `a;b` (containing a semicolon) is
rejected before any store access. -/
theorem tableRead_validation_witness :
    validTableName "a;b" = false ∧ tableReadCalls "a;b" = [] :=
  tableRead_validation.2 "a;b" ';' (by decide) (by decide)

/-! ## C5: `parseFileName` -/

/-- **C5.** `parseFileName` succeeds exactly under the claim's condition
(mandatory `.csv` extension, six trailing digits with month 1..12 and day
1..31, non-empty trimmed prefix); on success it returns the trimmed prefix
and the six digits, and on failure it carries a validation error message. -/
theorem parseFileName_spec (name : String) :
    ((parseFileName name).isValid = true ↔ ParseFileNameOk name) ∧
    ((parseFileName name).isValid = true →
        (parseFileName name).companyName =
          (jsTrim ((name.toList.take (name.toList.length - 4)).take
            ((name.toList.take (name.toList.length - 4)).length - 6))).asString ∧
        (parseFileName name).fileDate =
          ((name.toList.take (name.toList.length - 4)).drop
            ((name.toList.take (name.toList.length - 4)).length - 6)).asString) ∧
    ((parseFileName name).isValid = false →
        (parseFileName name).errorMessage ≠ none) := by
  refine ⟨?_, ?_, ?_⟩
  · simp only [parseFileName, ParseFileNameOk]
    split_ifs with h1 h2 h3 h4 h5
    · simp only [Bool.false_eq_true, false_iff]
      rintro ⟨hsuf, -⟩
      rw [Bool.not_eq_true'] at h1
      rw [h1] at hsuf
      exact absurd hsuf (by decide)
    · simp only [Bool.false_eq_true, false_iff]
      rintro ⟨-, h6, hdig, -⟩
      rw [Bool.not_eq_true', Bool.and_eq_false_iff] at h2
      rcases h2 with h2 | h2
      · rw [decide_eq_false_iff_not] at h2
        exact h2 h6
      · rw [List.all_eq_false] at h2
        obtain ⟨c, hc, hcd⟩ := h2
        exact hcd (hdig c hc)
    · simp only [Bool.false_eq_true, false_iff]
      rintro ⟨-, -, -, hm1, hm2, -, -, -⟩
      rcases h3 with h3 | h3 <;> omega
    · simp only [Bool.false_eq_true, false_iff]
      rintro ⟨-, -, -, -, -, hd1, hd2, -⟩
      rcases h4 with h4 | h4 <;> omega
    · simp only [Bool.false_eq_true, false_iff]
      rintro ⟨-, -, -, -, -, -, -, hne⟩
      exact hne h5
    · simp only [true_iff]
      simp only [Bool.not_eq_true, Bool.not_eq_false'] at h1 h2
      rw [Bool.and_eq_true] at h2
      push_neg at h3 h4
      exact ⟨h1, of_decide_eq_true h2.1, List.all_eq_true.mp h2.2,
        h3.1, h3.2, h4.1, h4.2, h5⟩
  · simp only [parseFileName]
    split_ifs with h1 h2 h3 h4 h5
    all_goals simp
  · simp only [parseFileName]
    split_ifs with h1 h2 h3 h4 h5
    all_goals simp

/-- Witness for C5 on the spec's own example file name. -/
theorem parseFileName_spec_witness :
    (parseFileName "모찌고251206.csv").isValid = true ∧
    (parseFileName "모찌고251206.csv").companyName = "모찌고" ∧
    (parseFileName "모찌고251206.csv").fileDate = "251206" := by
  have h := (parseFileName_spec "모찌고251206.csv").2.1 (by decide)
  exact ⟨by decide, h.1.trans (by decide), h.2.trans (by decide)⟩

/-! ## CSV scan lemmas -/

/-- `pushLine` preserves "all pushed lines are non-blank". -/
theorem pushLine_nonblank {acc : List (List Char)} {cur : List Char}
    (hacc : ∀ x ∈ acc, jsTrim x ≠ []) :
    ∀ l ∈ pushLine acc cur, jsTrim l ≠ [] := by
  intro l hl
  unfold pushLine at hl
  split_ifs at hl with h
  · rcases List.mem_append.mp hl with h' | h'
    · exact hacc l h'
    · rw [List.mem_singleton] at h'
      subst h'
      exact h
  · exact hacc l hl

/-- Every logical line the scanner emits has a non-blank trim. -/
theorem parseCSVLinesAux_nonblank :
    ∀ (cs cur : List Char) (q : Bool) (acc : List (List Char)),
      (∀ x ∈ acc, jsTrim x ≠ []) →
      ∀ l ∈ parseCSVLinesAux cs cur q acc, jsTrim l ≠ [] := by
  intro cs cur q acc
  induction cs, cur, q, acc using parseCSVLinesAux.induct with
  | case1 cur q acc =>
      intro hacc l hl
      exact pushLine_nonblank hacc l hl
  | case2 rest cur q acc ih =>
      intro hacc l hl
      exact ih hacc l hl
  | case3 rest cur q acc hne ih =>
      intro hacc l hl
      rcases rest with _ | ⟨c2, rest'⟩
      · exact ih hacc l hl
      · have hc2 : c2 ≠ '"' := fun h => hne rest' (by rw [h])
        rw [show parseCSVLinesAux ('"' :: c2 :: rest') cur q acc =
            parseCSVLinesAux (c2 :: rest') (cur ++ ['"']) (!q) acc by
          simp [parseCSVLinesAux, hc2]] at hl
        exact ih hacc l hl
  | case4 rest cur acc ih =>
      intro hacc l hl
      exact ih hacc l hl
  | case5 rest cur q acc hq ih =>
      intro hacc l hl
      have hq' : q = false := by revert hq; cases q <;> simp
      subst hq'
      exact ih (pushLine_nonblank hacc) l hl
  | case6 c rest cur q acc h1 h2 h3 hcond ih =>
      intro hacc l hl
      obtain ⟨hc, hq⟩ := hcond
      subst hq
      have hcq : c ≠ '"' := fun h => h2 h
      have step : parseCSVLinesAux (c :: rest) cur false acc =
          parseCSVLinesAux rest [] false (pushLine acc cur) := by
        rcases rest with _ | ⟨c2, rest'⟩
        · rcases hc with rfl | rfl <;> simp [parseCSVLinesAux]
        · have hc2 : c = '\r' → c2 ≠ '\n' := fun h h' => h3 rest' h (by rw [h'])
          rcases hc with rfl | rfl
          · simp [parseCSVLinesAux]
          · have := hc2 rfl
            simp [parseCSVLinesAux, this]
      rw [step] at hl
      exact ih (pushLine_nonblank hacc) l hl
  | case7 c rest cur q acc h1 h2 h3 hcond ih =>
      intro hacc l hl
      have hcq : c ≠ '"' := fun h => h2 h
      have step : parseCSVLinesAux (c :: rest) cur q acc =
          parseCSVLinesAux rest (cur ++ [c]) q acc := by
        by_cases hA : c = '\n' ∨ c = '\r'
        · have hq : q = true := by revert hcond; cases q <;> simp [hA]
          subst hq
          rcases rest with _ | ⟨c2, rest'⟩
          · rcases hA with rfl | rfl <;> simp [parseCSVLinesAux]
          · have hc2 : c = '\r' → c2 ≠ '\n' := fun h h' => h3 rest' h (by rw [h'])
            rcases hA with rfl | rfl
            · simp [parseCSVLinesAux]
            · simp [parseCSVLinesAux, hc2 rfl]
        · push_neg at hA
          rcases rest with _ | ⟨c2, rest'⟩
          · simp [parseCSVLinesAux, hcq, hA.1, hA.2]
          · have hc2 : c = '\r' → c2 ≠ '\n' := fun h h' => h3 rest' h (by rw [h'])
            simp [parseCSVLinesAux, hcq, hA.1, hA.2]
      rw [step] at hl
      exact ih hacc l hl

/-- Every line of `parseCSVLines` is non-blank. -/
theorem parseCSVLines_nonblank (csv : List Char) :
    ∀ l ∈ parseCSVLines csv, jsTrim l ≠ [] :=
  parseCSVLinesAux_nonblank csv [] false [] (by simp)

/-! ## C3: decoded shape -/

/-- Appending a fresh key grows a record by exactly one binding. -/
theorem jsSet_length_of_not_mem {row : Row} {k : String} (v : String)
    (h : k ∉ row.map Prod.fst) : (jsSet row k v).length = row.length + 1 := by
  induction row with
  | nil => rfl
  | cons kv rest ih =>
      simp only [List.map_cons, List.mem_cons, not_or] at h
      rw [jsSet, if_neg (by exact fun he => h.1 he.symm)]
      simp [ih h.2]

/-- Appending a fresh key appends it to the key list. -/
theorem jsSet_keys_of_not_mem {row : Row} {k : String} (v : String)
    (h : k ∉ row.map Prod.fst) :
    (jsSet row k v).map Prod.fst = row.map Prod.fst ++ [k] := by
  induction row with
  | nil => rfl
  | cons kv rest ih =>
      simp only [List.map_cons, List.mem_cons, not_or] at h
      rw [jsSet, if_neg (by exact fun he => h.1 he.symm)]
      simp [ih h.2]

/-- With pairwise-distinct trimmed header names, the header loop adds one
binding per header. -/
theorem buildRowAux_length (values : List (List Char)) :
    ∀ (hs : List (List Char)) (i : Nat) (obj : Row),
      ((hs.map fun h => (jsTrim h).asString).Nodup) →
      (∀ h ∈ hs, (jsTrim h).asString ∉ obj.map Prod.fst) →
      (buildRowAux values hs i obj).length = obj.length + hs.length := by
  intro hs
  induction hs with
  | nil => intro i obj _ _; simp [buildRowAux]
  | cons h hs ih =>
      intro i obj hnd hfresh
      rw [buildRowAux]
      simp only [List.map_cons, List.nodup_cons] at hnd
      have hk : (jsTrim h).asString ∉ obj.map Prod.fst :=
        hfresh h (List.mem_cons_self _ _)
      rw [ih (i + 1) _ hnd.2 ?_]
      · rw [jsSet_length_of_not_mem _ hk]
        simp
        omega
      · intro h' hh'
        rw [jsSet_keys_of_not_mem _ hk]
        intro hmem
        rcases List.mem_append.mp hmem with hmem | hmem
        · exact hfresh h' (List.mem_cons_of_mem _ hh') hmem
        · rw [List.mem_singleton] at hmem
          exact hnd.1 (hmem ▸ List.mem_map_of_mem (fun h => (jsTrim h).asString) hh')

/-- A decoded row carries exactly one binding per header. -/
theorem buildRow_length (headers values : List (List Char))
    (hnd : (headers.map fun h => (jsTrim h).asString).Nodup) :
    (buildRow headers values).length = headers.length := by
  rw [buildRow, buildRowAux_length values headers 0 [] hnd (by simp)]
  simp

/-- Length of the data fold of `csvToJsonArray` over non-blank lines. -/
theorem csv_fold_length (hs : List (List Char)) :
    ∀ (ds : List (List Char)) (init : List Row),
      (∀ l ∈ ds, jsTrim l ≠ []) →
      (ds.foldl
        (fun res line =>
          let l := jsTrim line
          if l = [] then res
          else res ++ [buildRow hs (parseCSVRow l)])
        init).length = init.length + ds.length := by
  intro ds
  induction ds with
  | nil => intro init _; simp
  | cons d ds ih =>
      intro init hds
      rw [List.foldl_cons]
      simp only [if_neg (hds d (List.mem_cons_self _ _))]
      rw [ih _ fun l hl => hds l (List.mem_cons_of_mem _ hl)]
      simp
      omega

/-- Every record the data fold emits is built from some data line. -/
theorem csv_fold_mem (hs : List (List Char)) :
    ∀ (ds : List (List Char)) (init : List Row) (r : Row),
      r ∈ ds.foldl
        (fun res line =>
          let l := jsTrim line
          if l = [] then res
          else res ++ [buildRow hs (parseCSVRow l)])
        init →
      r ∈ init ∨ ∃ line ∈ ds, r = buildRow hs (parseCSVRow (jsTrim line)) := by
  intro ds
  induction ds with
  | nil => intro init r hr; exact Or.inl hr
  | cons d ds ih =>
      intro init r hr
      rw [List.foldl_cons] at hr
      rcases ih _ r hr with hr' | ⟨line, hline, heq⟩
      · simp only [] at hr'
        split_ifs at hr' with hd
        · exact Or.inl hr'
        · rcases List.mem_append.mp hr' with hr'' | hr''
          · exact Or.inl hr''
          · rw [List.mem_singleton] at hr''
            exact Or.inr ⟨d, List.mem_cons_self _ _, hr''⟩
      · exact Or.inr ⟨line, List.mem_cons_of_mem _ hline, heq⟩

/-- A record always contains the binding just written by `jsSet`. -/
theorem jsSet_mem_self (obj : Row) (k v : String) : (k, v) ∈ jsSet obj k v := by
  induction obj with
  | nil => exact List.mem_singleton_self _
  | cons kv rest ih =>
      obtain ⟨k0, v0⟩ := kv
      rw [jsSet]
      split_ifs with h
      · subst h
        exact List.mem_cons_self _ _
      · exact List.mem_cons_of_mem _ ih

/-- `jsSet` under a different key preserves an existing binding. -/
theorem jsSet_mem_of_ne (k' v' : String) :
    ∀ (obj : Row) (k v : String), (k, v) ∈ obj → ¬k' = k →
      (k, v) ∈ jsSet obj k' v' := by
  intro obj
  induction obj with
  | nil => intro k v hmem _; cases hmem
  | cons kv rest ih =>
      intro k v hmem hne
      obtain ⟨k0, v0⟩ := kv
      rcases List.mem_cons.mp hmem with heq | hmem2
      · have hk : k = k0 := congrArg Prod.fst heq
        rw [jsSet]
        split_ifs with h
        · exact absurd (h.symm.trans hk.symm) hne
        · exact List.mem_cons.mpr (Or.inl heq)
      · rw [jsSet]
        split_ifs with h
        · exact List.mem_cons_of_mem _ hmem2
        · exact List.mem_cons_of_mem _ (ih k v hmem2 hne)

/-- The header loop preserves a binding whose key none of the remaining
trimmed headers equals. -/
theorem buildRowAux_preserve (values : List (List Char)) :
    ∀ (hs : List (List Char)) (i : Nat) (obj : Row) (k v : String),
      (k, v) ∈ obj → (∀ h ∈ hs, ¬(jsTrim h).asString = k) →
      (k, v) ∈ buildRowAux values hs i obj := by
  intro hs
  induction hs with
  | nil => intro i obj k v hmem _; exact hmem
  | cons h hs2 ih =>
      intro i obj k v hmem hne
      rw [buildRowAux]
      exact ih (i + 1) _ k v
        (jsSet_mem_of_ne _ _ _ k v hmem (hne h (List.mem_cons_self _ _)))
        (fun h2 hh2 => hne h2 (List.mem_cons_of_mem _ hh2))

/-- With pairwise-distinct trimmed headers, the record built by the header
loop binds the `j`-th trimmed header name to the trimmed `(i+j)`-th field
value — which is the empty string when that field is missing. -/
theorem buildRowAux_binding (values : List (List Char)) :
    ∀ (hs : List (List Char)) (i : Nat) (obj : Row),
      ((hs.map fun h => (jsTrim h).asString).Nodup) →
      ∀ j, j < hs.length →
        ((jsTrim (hs.getD j [])).asString,
          (jsTrim (values.getD (i + j) [])).asString) ∈
          buildRowAux values hs i obj := by
  intro hs
  induction hs with
  | nil => intro i obj _ j hj; simp at hj
  | cons h hs2 ih =>
      intro i obj hnd j hj
      simp only [List.map_cons, List.nodup_cons] at hnd
      rcases j with _ | j2
      · rw [buildRowAux]
        simp only [List.getD_cons_zero, Nat.add_zero]
        refine buildRowAux_preserve values hs2 (i + 1) _ _ _
          (jsSet_mem_self _ _ _) ?_
        intro h2 hh2 heq
        exact hnd.1 (heq ▸ List.mem_map_of_mem _ hh2)
      · rw [buildRowAux]
        simp only [List.getD_cons_succ]
        rw [show i + (j2 + 1) = (i + 1) + j2 from by omega]
        exact ih (i + 1) _ hnd.2 j2 (by simpa using hj)

/-- **C3, amended.** Decoding any CSV yields exactly one record per
non-blank data line (unconditionally).  When the trimmed header names are
pairwise distinct, every record has exactly as many keys as the header has
columns, and each record — built from its own data line — binds the `i`-th
trimmed header name to the trimmed `i`-th field of that line, so a value
missing at the end of the line appears as the empty string under its header
key rather than as an absent key.  Without the distinctness proviso,
duplicate headers collapse into one key (see the counterexample). -/
theorem csv_decode_shape (csv : String) :
    ((csvToJsonArray csv).length =
      (parseCSVLines (stripBOM csv.toList)).length - 1) ∧
    (((parseCSVRow ((parseCSVLines (stripBOM csv.toList)).headD [])).map
        fun h => (jsTrim h).asString).Nodup →
      (∀ r ∈ csvToJsonArray csv,
        r.length =
          (parseCSVRow ((parseCSVLines (stripBOM csv.toList)).headD [])).length) ∧
      (∀ r ∈ csvToJsonArray csv,
        ∃ line ∈ (parseCSVLines (stripBOM csv.toList)).tail,
          r = buildRow
              (parseCSVRow ((parseCSVLines (stripBOM csv.toList)).headD []))
              (parseCSVRow (jsTrim line)) ∧
          (∀ i, i <
              (parseCSVRow ((parseCSVLines (stripBOM csv.toList)).headD [])).length →
            ((jsTrim ((parseCSVRow ((parseCSVLines
                (stripBOM csv.toList)).headD [])).getD i [])).asString,
              (jsTrim ((parseCSVRow (jsTrim line)).getD i [])).asString) ∈ r) ∧
          (∀ i, i <
              (parseCSVRow ((parseCSVLines (stripBOM csv.toList)).headD [])).length →
            (parseCSVRow (jsTrim line)).length ≤ i →
            ((jsTrim ((parseCSVRow ((parseCSVLines
                (stripBOM csv.toList)).headD [])).getD i [])).asString, "")
              ∈ r))) := by
  have hnb := parseCSVLines_nonblank (stripBOM csv.toList)
  rw [csvToJsonArray]
  rcases hl : parseCSVLines (stripBOM csv.toList) with _ | ⟨header, ds⟩
  · simp
  · rcases ds with _ | ⟨d, ds2⟩
    · simp
    · rw [hl] at hnb
      refine ⟨?_, fun hnd => ⟨?_, ?_⟩⟩
      · rw [csv_fold_length (parseCSVRow header) (d :: ds2) []
          fun l hli => hnb l (List.mem_cons_of_mem _ hli)]
        simp
      · intro r hr
        simp only [List.headD_cons] at hnd ⊢
        rcases csv_fold_mem (parseCSVRow header) (d :: ds2) [] r hr with
          h0 | ⟨line, hline, heq⟩
        · exact absurd h0 (List.not_mem_nil r)
        · rw [heq]
          exact buildRow_length _ _ hnd
      · intro r hr
        simp only [List.headD_cons] at hnd ⊢
        rcases csv_fold_mem (parseCSVRow header) (d :: ds2) [] r hr with
          h0 | ⟨line, hline, heq⟩
        · exact absurd h0 (List.not_mem_nil r)
        · refine ⟨line, by simpa using hline, heq, ?_, ?_⟩
          · intro i hi
            rw [heq]
            have hb := buildRowAux_binding (parseCSVRow (jsTrim line))
              (parseCSVRow header) 0 [] hnd i hi
            simpa [buildRow] using hb
          · intro i hi hlen
            rw [heq]
            have hb := buildRowAux_binding (parseCSVRow (jsTrim line))
              (parseCSVRow header) 0 [] hnd i hi
            simp only [Nat.zero_add] at hb
            rw [List.getD_eq_default _ _ hlen] at hb
            simpa [buildRow, jsTrim] using hb

/-- **C3, counterexample.** The CSV `"a,a\n1,2"` has a 2-column header, but
its single decoded record has only 1 key: duplicate header names collapse
in the record, so "every row mapping has exactly M keys" fails as stated. -/
theorem csv_duplicate_header_cex :
    (parseCSVRow ((parseCSVLines (stripBOM ("a,a\n1,2" : String).toList)).headD
        [])).length = 2 ∧
    csvToJsonArray "a,a\n1,2" = [[("a", "2")]] ∧
    ¬ ∀ r ∈ csvToJsonArray "a,a\n1,2", r.length = 2 := by
  refine ⟨by decide, by decide, ?_⟩
  intro h
  have := h [("a", "2")] (by decide)
  simp at this

/-- Witness for C3 on a concrete CSV with distinct headers and two data
lines, one of them with a missing trailing value. -/
theorem csv_decode_shape_witness :
    ((csvToJsonArray "a,b\n1,2\n3").length =
      (parseCSVLines (stripBOM ("a,b\n1,2\n3" : String).toList)).length - 1) ∧
    (∀ r ∈ csvToJsonArray "a,b\n1,2\n3",
      r.length =
        (parseCSVRow ((parseCSVLines
          (stripBOM ("a,b\n1,2\n3" : String).toList)).headD [])).length) :=
  ⟨(csv_decode_shape "a,b\n1,2\n3").1,
    ((csv_decode_shape "a,b\n1,2\n3").2 (by decide)).1⟩

/-! ## C9: quoted fields -/

/-- Inside quotes, the line scanner appends any non-quote character to the
current logical line. -/
theorem parseCSVLinesAux_quoted_cons (c : Char) (hc : c ≠ '"')
    (cs cur : List Char) (acc : List (List Char)) :
    parseCSVLinesAux (c :: cs) cur true acc =
      parseCSVLinesAux cs (cur ++ [c]) true acc := by
  rcases cs with _ | ⟨c2, cs2⟩
  · by_cases h1 : c = '\r'
    · subst h1; simp [parseCSVLinesAux]
    · by_cases h2 : c = '\n'
      · subst h2; simp [parseCSVLinesAux]
      · simp [parseCSVLinesAux, hc, h1, h2]
  · by_cases h1 : c = '\r'
    · subst h1
      by_cases h2 : c2 = '\n'
      · subst h2; simp [parseCSVLinesAux]
      · simp [parseCSVLinesAux, h2]
    · by_cases h2 : c = '\n'
      · subst h2; simp [parseCSVLinesAux]
      · simp [parseCSVLinesAux, hc, h1, h2]

/-- Inside quotes, the line scanner appends a whole quote-free run. -/
theorem parseCSVLinesAux_quoted_append (f : List Char)
    (hf : ∀ c ∈ f, c ≠ '"') :
    ∀ (rest cur : List Char) (acc : List (List Char)),
      parseCSVLinesAux (f ++ rest) cur true acc =
        parseCSVLinesAux rest (cur ++ f) true acc := by
  induction f with
  | nil => intro rest cur acc; simp
  | cons c f2 ih =>
      intro rest cur acc
      rw [List.cons_append,
        parseCSVLinesAux_quoted_cons c (hf c (List.mem_cons_self _ _)),
        ih (fun x hx => hf x (List.mem_cons_of_mem _ hx)) rest (cur ++ [c]) acc,
        List.append_assoc]
      rfl

/-- Inside quotes, the field scanner appends any non-quote character to the
current field. -/
theorem parseCSVRowAux_quoted_cons (c : Char) (hc : c ≠ '"')
    (cs cur : List Char) (acc : List (List Char)) :
    parseCSVRowAux (c :: cs) cur true acc =
      parseCSVRowAux cs (cur ++ [c]) true acc := by
  by_cases hcm : c = ','
  · subst hcm; simp [parseCSVRowAux]
  · simp [parseCSVRowAux, hc, hcm]

/-- Inside quotes, the field scanner appends a whole quote-free run. -/
theorem parseCSVRowAux_quoted_append (f : List Char)
    (hf : ∀ c ∈ f, c ≠ '"') :
    ∀ (rest cur : List Char) (acc : List (List Char)),
      parseCSVRowAux (f ++ rest) cur true acc =
        parseCSVRowAux rest (cur ++ f) true acc := by
  induction f with
  | nil => intro rest cur acc; simp
  | cons c f2 ih =>
      intro rest cur acc
      rw [List.cons_append,
        parseCSVRowAux_quoted_cons c (hf c (List.mem_cons_self _ _)),
        ih (fun x hx => hf x (List.mem_cons_of_mem _ hx)) rest (cur ++ [c]) acc,
        List.append_assoc]
      rfl

/-- A quote-delimited logical line is untouched by `trim`. -/
theorem jsTrim_quoted (l : List Char) :
    jsTrim ('"' :: (l ++ ['"'])) = '"' :: (l ++ ['"']) := by
  have hq : isJsWs '"' = false := by decide
  unfold jsTrim
  rw [List.dropWhile_cons, if_neg (by simp [hq])]
  rw [show ('"' :: (l ++ ['"'])).reverse = '"' :: (l.reverse ++ ['"']) by simp]
  rw [List.dropWhile_cons, if_neg (by simp [hq])]
  simp

/-- The line scanner keeps a quoted field with embedded separators as one
logical line. -/
theorem parseCSVLines_quoted (c0 : Char) (g2 : List Char)
    (hg : ∀ c ∈ c0 :: g2, c ≠ '"') :
    parseCSVLines ('h' :: '\n' :: '"' :: ((c0 :: g2) ++ ['"'])) =
      [['h'], '"' :: ((c0 :: g2) ++ ['"'])] := by
  unfold parseCSVLines
  rw [show parseCSVLinesAux ('h' :: '\n' :: '"' :: ((c0 :: g2) ++ ['"'])) [] false [] =
      parseCSVLinesAux ('\n' :: '"' :: ((c0 :: g2) ++ ['"'])) ['h'] false [] by
    simp [parseCSVLinesAux]]
  rw [show parseCSVLinesAux ('\n' :: '"' :: ((c0 :: g2) ++ ['"'])) ['h'] false [] =
      parseCSVLinesAux ('"' :: ((c0 :: g2) ++ ['"'])) [] false [['h']] by
    simp only [parseCSVLinesAux]
    rw [show pushLine [] ['h'] = [['h']] from by decide]
    simp]
  rw [show parseCSVLinesAux ('"' :: ((c0 :: g2) ++ ['"'])) [] false [['h']] =
      parseCSVLinesAux ((c0 :: g2) ++ ['"']) ['"'] true [['h']] by
    simp [parseCSVLinesAux, hg c0 (List.mem_cons_self _ _)]]
  rw [parseCSVLinesAux_quoted_append (c0 :: g2) hg]
  simp only [List.singleton_append]
  rw [show parseCSVLinesAux ['"'] ('"' :: (c0 :: g2)) true [['h']] =
      parseCSVLinesAux [] (('"' :: (c0 :: g2)) ++ ['"']) false [['h']] by
    simp [parseCSVLinesAux]]
  rw [show parseCSVLinesAux [] (('"' :: (c0 :: g2)) ++ ['"']) false [['h']] =
      pushLine [['h']] (('"' :: (c0 :: g2)) ++ ['"']) from rfl]
  rw [pushLine, if_pos (by rw [show ('"' :: (c0 :: g2)) ++ ['"'] =
      '"' :: ((c0 :: g2) ++ ['"']) from rfl, jsTrim_quoted]; simp)]
  rfl

/-- The field scanner turns a quoted field into one field, quotes dropped. -/
theorem parseCSVRow_quoted (c0 : Char) (g2 : List Char)
    (hg : ∀ c ∈ c0 :: g2, c ≠ '"') :
    parseCSVRow ('"' :: ((c0 :: g2) ++ ['"'])) = [c0 :: g2] := by
  unfold parseCSVRow
  rw [show parseCSVRowAux ('"' :: ((c0 :: g2) ++ ['"'])) [] false [] =
      parseCSVRowAux ((c0 :: g2) ++ ['"']) [] true [] by
    simp [parseCSVRowAux, hg c0 (List.mem_cons_self _ _)]]
  rw [parseCSVRowAux_quoted_append (c0 :: g2) hg]
  simp only [List.nil_append]
  rw [show parseCSVRowAux ['"'] (c0 :: g2) true [] =
      parseCSVRowAux [] (c0 :: g2) false [] by simp [parseCSVRowAux]]
  rfl

/-- **C9.** A quoted field containing commas and newlines decodes as one
field whose value keeps them literally, with the quote delimiters dropped;
and a doubled quote inside the scan emits exactly one literal quote in the
field value. -/
theorem csv_quoted_field :
    (∀ g : List Char, (∀ c ∈ g, c ≠ '"') → g ≠ [] → jsTrim g = g →
        csvToJsonArray ("h\n\"" ++ g.asString ++ "\"") = [[("h", g.asString)]]) ∧
    (∀ a b : List Char, a ≠ [] → (∀ c ∈ a, c ≠ '"') → (∀ c ∈ b, c ≠ '"') →
        parseCSVRow ('"' :: (a ++ '"' :: '"' :: (b ++ ['"']))) =
          [a ++ '"' :: b]) := by
  constructor
  · rintro (_ | ⟨c0, g2⟩) hg hne htr
    · exact absurd rfl hne
    · have htl : ("h\n\"" ++ (c0 :: g2).asString ++ "\"").toList =
          'h' :: '\n' :: '"' :: ((c0 :: g2) ++ ['"']) := by
        simp only [String.toList, String.data_append]
        rw [show ((c0 :: g2).asString).data = c0 :: g2 from List.toList_asString _]
        rfl
      rw [csvToJsonArray, htl]
      rw [show stripBOM ('h' :: '\n' :: '"' :: ((c0 :: g2) ++ ['"'])) =
          'h' :: '\n' :: '"' :: ((c0 :: g2) ++ ['"']) from rfl]
      rw [parseCSVLines_quoted c0 g2 hg]
      rw [show ('"' :: ((c0 :: g2) ++ ['"'])) =
          '"' :: ((c0 :: g2) ++ ['"']) from rfl]
      simp only [List.foldl_cons, List.foldl_nil]
      rw [show ('"' :: ((c0 :: g2) ++ ['"'])) = '"' :: ((c0 :: g2) ++ ['"']) from rfl]
      rw [jsTrim_quoted (c0 :: g2)]
      rw [if_neg (by simp)]
      rw [parseCSVRow_quoted c0 g2 hg]
      rw [show parseCSVRow ['h'] = [['h']] from by decide]
      simp [buildRow, buildRowAux, jsSet, htr]
      decide
  · rintro (_ | ⟨a0, a2⟩) b hane ha hb
    · exact absurd rfl hane
    · unfold parseCSVRow
      rw [show parseCSVRowAux ('"' :: ((a0 :: a2) ++ '"' :: '"' :: (b ++ ['"'])))
            [] false [] =
          parseCSVRowAux ((a0 :: a2) ++ '"' :: '"' :: (b ++ ['"'])) [] true [] by
        simp [parseCSVRowAux, ha a0 (List.mem_cons_self _ _)]]
      rw [parseCSVRowAux_quoted_append (a0 :: a2) ha]
      simp only [List.nil_append]
      rw [show parseCSVRowAux ('"' :: '"' :: (b ++ ['"'])) (a0 :: a2) true [] =
          parseCSVRowAux (b ++ ['"']) ((a0 :: a2) ++ ['"']) true [] by
        simp [parseCSVRowAux]]
      rw [parseCSVRowAux_quoted_append b hb]
      rw [show parseCSVRowAux ['"'] (((a0 :: a2) ++ ['"']) ++ b) true [] =
          parseCSVRowAux [] (((a0 :: a2) ++ ['"']) ++ b) false [] by
        simp [parseCSVRowAux]]
      rw [show parseCSVRowAux [] (((a0 :: a2) ++ ['"']) ++ b) false [] =
          [((a0 :: a2) ++ ['"']) ++ b] from rfl]
      simp

/-- Witness for C9: the field `x,y\nz` (comma and newline inside quotes) and
the doubled quote in `"p""q"`. -/
theorem csv_quoted_field_witness :
    csvToJsonArray ("h\n\"" ++ ("x,y\nz".toList).asString ++ "\"") =
      [[("h", ("x,y\nz".toList).asString)]] ∧
    parseCSVRow ('"' :: (['p'] ++ '"' :: '"' :: (['q'] ++ ['"']))) =
      [['p'] ++ '"' :: ['q']] :=
  ⟨csv_quoted_field.1 _ (by decide) (by decide) (by decide),
    csv_quoted_field.2 ['p'] ['q'] (by decide) (by decide) (by decide)⟩

/-! ## C1: soft-delete writes the TrashEntry first -/

/-- **C1.** If the TrashEntry write fails, the soft-delete handler aborts
with an error and leaves the store (in particular the live table) untouched;
and whenever the live tables changed at all, the TrashEntry write succeeded
and the final trash store holds an entry for the deleted table. -/
theorem softDelete_snapshot_write_first (o : DelOracle) (t : String)
    (st : AdminState) :
    (o.trashInsertOk = false →
        (deleteTable o t st).1 ≠ ApiResp.success ∧ (deleteTable o t st).2 = st) ∧
    ((deleteTable o t st).2.tables ≠ st.tables →
        o.trashInsertOk = true ∧
          ∃ r ∈ (deleteTable o t st).2.trash, r.tableName = t) := by
  by_cases h1 : t = ""
  · refine ⟨fun hins => ⟨by simp [deleteTable, h1], by simp [deleteTable, h1]⟩,
      fun htab => absurd (show (deleteTable o t st).2.tables = st.tables by
        simp [deleteTable, h1]) htab⟩
  · by_cases h2 : validTableName t
    · by_cases h3 : o.trashInsertOk
      · by_cases h4 : o.dropOk
        · refine ⟨fun hins => absurd h3 (by simp [hins]), fun _ => ⟨h3, ?_⟩⟩
          simp [deleteTable, h1, h2, h3, h4]
          split_ifs <;>
            exact ⟨mkTrashRec st t (delLogData o t st) (delOrigData o t st),
              by simp, rfl⟩
        · refine ⟨fun hins => absurd h3 (by simp [hins]), fun htab => ?_⟩
          exact absurd (show (deleteTable o t st).2.tables = st.tables by
            simp [deleteTable, h1, h2, h3, h4]
            split_ifs <;> rfl) htab
      · rw [Bool.not_eq_true] at h3
        refine ⟨fun _ => ⟨by simp [deleteTable, h1, h2, h3],
          by simp [deleteTable, h1, h2, h3]⟩, fun htab => ?_⟩
        exact absurd (show (deleteTable o t st).2.tables = st.tables by
          simp [deleteTable, h1, h2, h3]) htab
    · rw [Bool.not_eq_true] at h2
      refine ⟨fun hins => ⟨by simp [deleteTable, h1, h2],
        by simp [deleteTable, h1, h2]⟩,
        fun htab => absurd (show (deleteTable o t st).2.tables = st.tables by
          simp [deleteTable, h1, h2]) htab⟩

/-- Witness for C1: a failing trash write on a concrete store aborts with an
error and leaves the state unchanged. -/
theorem softDelete_snapshot_write_first_witness :
    (deleteTable ⟨true, true, false, true, true, true, none⟩ "t1"
        ⟨[⟨"public", "t1", [[("a", "1")]]⟩], [], [], ["public"], 5⟩).1 ≠
      ApiResp.success ∧
    (deleteTable ⟨true, true, false, true, true, true, none⟩ "t1"
        ⟨[⟨"public", "t1", [[("a", "1")]]⟩], [], [], ["public"], 5⟩).2 =
      ⟨[⟨"public", "t1", [[("a", "1")]]⟩], [], [], ["public"], 5⟩ :=
  (softDelete_snapshot_write_first ⟨true, true, false, true, true, true, none⟩
    "t1" ⟨[⟨"public", "t1", [[("a", "1")]]⟩], [], [], ["public"], 5⟩).1 rfl

/-! ## C10: failed drop after a successful trash write -/

/-- **C10, counterexample.** With the trash write succeeding, the drop
failing, and the best-effort compensating delete also failing, the handler
reports an error and the live table is still present — yet a TrashEntry for
it is left behind, so "a table that was not actually dropped never leaves a
TrashEntry behind" is false as stated. -/
theorem softDelete_comp_delete_cex :
    (deleteTable ⟨true, true, true, false, true, false, none⟩ "t1"
        ⟨[⟨"public", "t1", [[("a", "1")]]⟩], [], [], ["public"], 5⟩).1 =
      ApiResp.serverError ∧
    (deleteTable ⟨true, true, true, false, true, false, none⟩ "t1"
        ⟨[⟨"public", "t1", [[("a", "1")]]⟩], [], [], ["public"], 5⟩).2.tables =
      [⟨"public", "t1", [[("a", "1")]]⟩] ∧
    (deleteTable ⟨true, true, true, false, true, false, none⟩ "t1"
        ⟨[⟨"public", "t1", [[("a", "1")]]⟩], [], [], ["public"], 5⟩).2.trash ≠
      [] := by
  refine ⟨by decide, by decide, by decide⟩

/-- **C10, amended.** When the drop fails after the TrashEntry write
succeeded, the handler reports an error, the live table is not dropped, and
it issues a best-effort compensating delete of the trash rows for that table
name: when that delete succeeds no TrashEntry with the table's name remains
(pre-existing ones included), and when it fails the just-written TrashEntry
is left behind. -/
theorem softDelete_drop_failure (o : DelOracle) (t : String) (st : AdminState)
    (h1 : t ≠ "") (h2 : validTableName t = true) (h3 : o.trashInsertOk = true)
    (h4 : o.dropOk = false) :
    (deleteTable o t st).1 = ApiResp.serverError ∧
    (deleteTable o t st).2.tables = st.tables ∧
    (o.compDeleteOk = true →
        (deleteTable o t st).2.trash =
          st.trash.filter (fun r => !(r.tableName == t))) ∧
    (o.compDeleteOk = false →
        (deleteTable o t st).2.trash =
          st.trash ++ [mkTrashRec st t (delLogData o t st) (delOrigData o t st)]) := by
  refine ⟨?_, ?_, ?_, ?_⟩
  · simp [deleteTable, h1, h2, h3, h4]
  · simp [deleteTable, h1, h2, h3, h4]
    split_ifs <;> rfl
  · intro h5
    simp [deleteTable, h1, h2, h3, h4, h5, List.filter_append, mkTrashRec]
  · intro h5
    simp [deleteTable, h1, h2, h3, h4, h5]

/-- Witness for C10 (amended) on a concrete store where the compensating
delete succeeds. -/
theorem softDelete_drop_failure_witness :
    (deleteTable ⟨true, true, true, false, true, true, none⟩ "t1"
        ⟨[⟨"public", "t1", [[("a", "1")]]⟩], [], [], ["public"], 5⟩).1 =
      ApiResp.serverError ∧
    (deleteTable ⟨true, true, true, false, true, true, none⟩ "t1"
        ⟨[⟨"public", "t1", [[("a", "1")]]⟩], [], [], ["public"], 5⟩).2.tables =
      [⟨"public", "t1", [[("a", "1")]]⟩] ∧
    (deleteTable ⟨true, true, true, false, true, true, none⟩ "t1"
        ⟨[⟨"public", "t1", [[("a", "1")]]⟩], [], [], ["public"], 5⟩).2.trash =
      [] :=
  ⟨(softDelete_drop_failure ⟨true, true, true, false, true, true, none⟩ "t1"
      ⟨[⟨"public", "t1", [[("a", "1")]]⟩], [], [], ["public"], 5⟩
      (by decide) (by decide) rfl rfl).1,
   (softDelete_drop_failure ⟨true, true, true, false, true, true, none⟩ "t1"
      ⟨[⟨"public", "t1", [[("a", "1")]]⟩], [], [], ["public"], 5⟩
      (by decide) (by decide) rfl rfl).2.1,
   ((softDelete_drop_failure ⟨true, true, true, false, true, true, none⟩ "t1"
      ⟨[⟨"public", "t1", [[("a", "1")]]⟩], [], [], ["public"], 5⟩
      (by decide) (by decide) rfl rfl).2.2.1 rfl).trans (by decide)⟩

/-! ## C4: restore failure leaves the TrashEntry intact -/

/-- The reinsertion loop never touches the trash store. -/
theorem insertSnapshotRows_trash (o : RestOracle) (tname : String) :
    ∀ (rows : List Row) (i : Nat) (st : AdminState),
      (insertSnapshotRows o tname rows i st).trash = st.trash := by
  intro rows
  induction rows with
  | nil => intro i st; rfl
  | cons r rs ih =>
      intro i st
      rw [insertSnapshotRows, ih]
      split_ifs <;> rfl

/-- The reinsertion loop never touches the upload log. -/
theorem insertSnapshotRows_logs (o : RestOracle) (tname : String) :
    ∀ (rows : List Row) (i : Nat) (st : AdminState),
      (insertSnapshotRows o tname rows i st).logs = st.logs := by
  intro rows
  induction rows with
  | nil => intro i st; rfl
  | cons r rs ih =>
      intro i st
      rw [insertSnapshotRows, ih]
      split_ifs <;> rfl

/-- **C4, counterexample.** Restoring a TrashEntry whose snapshot is absent
succeeds (all store calls succeeding) but creates no table at all, so "on
success exactly one new UploadRecord and one new table are produced" is
false as stated. -/
theorem restore_empty_snapshot_cex :
    (restorePOST ⟨true, true, fun _ => true, true, true⟩ 7
        ⟨[], [⟨7, "t1", "c", "f", "d", 0, none⟩], [], [], 8⟩).1 =
      ApiResp.success ∧
    (restorePOST ⟨true, true, fun _ => true, true, true⟩ 7
        ⟨[], [⟨7, "t1", "c", "f", "d", 0, none⟩], [], [], 8⟩).2.tables = [] := by
  refine ⟨by decide, by decide⟩

/-- **C4, amended.** A failed restore (any non-success response) leaves the
whole store — in particular the TrashEntry — unchanged, so the operation is
retryable.  On success the handler deletes the trash rows with the given id
when that best-effort delete succeeds; the new UploadRecord appears only if
the ledger insert succeeds; and for an entry with an absent snapshot the
restore succeeds without creating any table. -/
theorem restore_failure_retryable (o : RestOracle) (id : Nat)
    (st : AdminState) :
    ((restorePOST o id st).1 ≠ ApiResp.success → (restorePOST o id st).2 = st) ∧
    ((restorePOST o id st).1 = ApiResp.success → o.trashDeleteOk = true →
        (restorePOST o id st).2.trash =
          st.trash.filter (fun r => !(r.id == id))) ∧
    ((restorePOST o id st).1 = ApiResp.success → o.logInsertOk = false →
        (restorePOST o id st).2.logs = st.logs) ∧
    (∀ item : TrashRec, id ≠ 0 → restoreItem o id st = some item →
        item.originalData = none →
        (restorePOST o id st).1 = ApiResp.success ∧
        (restorePOST o id st).2.tables = st.tables) := by
  by_cases h0 : id = 0
  · refine ⟨fun _ => by simp [restorePOST, h0], fun hs => ?_, fun hs => ?_,
      fun item hne => absurd h0 hne⟩ <;>
      simp [restorePOST, h0] at hs
  · rcases hi : restoreItem o id st with _ | item
    · refine ⟨fun _ => by simp [restorePOST, h0, hi], fun hs => ?_, fun hs => ?_,
        fun item _ hit => by cases hit⟩ <;>
        simp [restorePOST, h0, hi] at hs
    · have htr : st.trash.filter (fun r => r.id == id) = [item] := by
        rw [restoreItem] at hi
        split_ifs at hi with hf
        · rcases hfl : st.trash.filter (fun r => r.id == id) with _ | ⟨x, _ | ⟨y, l⟩⟩ <;>
            rw [hfl] at hi
          · cases hi
          · injection hi with h
            rw [hfl, h]
          · cases hi
      rcases hod : item.originalData with _ | rows
      · refine ⟨fun hs => absurd ?_ hs, fun _ h5 => ?_, fun _ h5 => ?_,
          fun item' _ hit _ => ?_⟩
        · simp [restorePOST, h0, hi, hod, finishRestore]
        · simp [restorePOST, h0, hi, hod, finishRestore, h5]
          all_goals split_ifs <;> rfl
        · simp [restorePOST, h0, hi, hod, finishRestore, h5]
          all_goals split_ifs <;> rfl
        · injection hit with h
          subst h
          constructor
          · simp [restorePOST, h0, hi, hod, finishRestore]
          · simp [restorePOST, h0, hi, hod, finishRestore]
            all_goals split_ifs <;> rfl
      · rcases rows with _ | ⟨r0, rs⟩
        · refine ⟨fun hs => absurd ?_ hs, fun _ h5 => ?_, fun _ h5 => ?_,
            fun item' _ hit hod' => ?_⟩
          · simp [restorePOST, h0, hi, hod, finishRestore]
          · simp [restorePOST, h0, hi, hod, finishRestore, h5]
            all_goals split_ifs <;> rfl
          · simp [restorePOST, h0, hi, hod, finishRestore, h5]
            all_goals split_ifs <;> rfl
          · injection hit with h
            subst h
            rw [hod'] at hod
            cases hod
        · by_cases hc : o.createOk
          · refine ⟨fun hs => absurd ?_ hs, fun _ h5 => ?_, fun _ h5 => ?_,
              fun item' _ hit hod' => ?_⟩
            · simp [restorePOST, h0, hi, hod, hc, finishRestore]
            · simp [restorePOST, h0, hi, hod, hc, finishRestore, h5,
                insertSnapshotRows_trash]
              all_goals split_ifs <;> simp [insertSnapshotRows_trash]
            · simp [restorePOST, h0, hi, hod, hc, finishRestore, h5,
                insertSnapshotRows_logs]
              all_goals split_ifs <;> simp [insertSnapshotRows_logs]
            · injection hit with h
              subst h
              rw [hod'] at hod
              cases hod
          · rw [Bool.not_eq_true] at hc
            refine ⟨fun _ => by simp [restorePOST, h0, hi, hod, hc],
              fun hs => ?_, fun hs => ?_, fun item' _ hit hod' => ?_⟩
            · simp [restorePOST, h0, hi, hod, hc] at hs
            · simp [restorePOST, h0, hi, hod, hc] at hs
            · injection hit with h
              subst h
              rw [hod'] at hod
              cases hod

/-- Witness for C4 (amended): a failed restore (table creation fails) on a
concrete store leaves the state, and in particular the TrashEntry, intact. -/
theorem restore_failure_retryable_witness :
    (restorePOST ⟨true, false, fun _ => true, true, true⟩ 7
        ⟨[], [⟨7, "t1", "c", "f", "d", 1, some [[("x", "1")]]⟩], [], [], 8⟩).2 =
      ⟨[], [⟨7, "t1", "c", "f", "d", 1, some [[("x", "1")]]⟩], [], [], 8⟩ :=
  (restore_failure_retryable ⟨true, false, fun _ => true, true, true⟩ 7
    ⟨[], [⟨7, "t1", "c", "f", "d", 1, some [[("x", "1")]]⟩], [], [], 8⟩).1
    (by decide)

end Midcam
